import Mathlib

/-!
Verification of the `HerokuREPL` subprocess supervisor
(`src/repl/heroku-cli-repl.ts` of heroku-mcp-server).

The class keeps one interactive Heroku CLI subprocess alive, serializes
commands into it through a FIFO queue, and demultiplexes the subprocess
output back to the callers using a sentinel marker.

The embedding below is a state machine: `REPLState` carries the fields of
the class (`isProcessingCommand`, `isReady`, `buffer`, `commandQueue`, the
abort flag of the `AbortController`, the pause state of the pump loop, the
pending per-command timer) together with observation ledgers that record
what the outside world sees (`resolved`: which futures were resolved, in
order, with which value; `writes`: which commands were written to stdin;
`spawnCount`: how many times a subprocess was spawned).  Each event handler
of the class becomes a function `REPLState → ... → REPLState`, translated
line by line from the source; `step` dispatches an external event
(stdout/stderr data, process close, timer firings, caller calls) to its
handler, and `run` folds a list of events from the constructor state.

Strings are modelled as `List Char`; `trimChars` models
`String.prototype.trim` and `containsSeq` models `String.prototype.includes`.
-/

/-- Whitespace test used by the model of `String.prototype.trim`. -/
def isWs (c : Char) : Bool :=
  c == ' ' || c == '\n' || c == '\t' || c == '\r'

/-- Model of `String.prototype.trim`: drop whitespace from both ends. -/
def trimChars (l : List Char) : List Char :=
  ((l.dropWhile isWs).reverse.dropWhile isWs).reverse

/-- Does the second list start with the first one? -/
def startsWith : List Char → List Char → Bool
  | [], _ => true
  | _ :: _, [] => false
  | p :: ps, c :: cs => p == c && startsWith ps cs

/-- Model of `String.prototype.includes`: does `pat` occur as a contiguous
run inside the second list? -/
def containsSeq (pat : List Char) : List Char → Bool
  | [] => startsWith pat []
  | c :: cs => startsWith pat (c :: cs) || containsSeq pat cs

/-- The completion sentinel `COMMAND_END_RESULTS_MESSAGE` of the source. -/
def COMMAND_END_RESULTS_MESSAGE : List Char := "<<<END RESULTS>>>".data

/-- The interactive-ready marker `READY_MESSAGE` of the source. -/
def READY_MESSAGE : List Char := "heroku >".data

/-- State of one `HerokuREPL` instance.  The first block of fields are the
fields of the class; the second block are observation ledgers recording the
externally visible effects (resolved futures, stdin writes, spawns, the
pending clean-exit respawn timers). -/
structure REPLState where
  isProcessingCommand : Bool
  isReady : Bool
  aborted : Bool
  buffer : List Char
  commandQueue : List (Nat × List Char)
  nextId : Nat
  pumpBlocked : Bool
  timeoutPending : Bool
  commandTimeout : Nat
  pendingCleanRespawns : Nat
  spawnCount : Nat
  resolved : List (Nat × List Char)
  writes : List Nat
deriving DecidableEq

/-- Model of `pauseQueue()`: replace `pauseIterator` with a fresh pending
promise, so the pump loop blocks at its next `await`. -/
def pauseQueue (s : REPLState) : REPLState :=
  { s with pumpBlocked := true }

/-- Model of `handleOutput(output)` (source lines 193-210): append to the
buffer; if the buffer contains the sentinel while a command is processing,
resolve the head of the queue with the whole trimmed buffer, clear the
buffer, clear the processing flag, cancel the timer, and pause the queue
when it became empty. -/
def handleOutput (s : REPLState) (output : List Char) : REPLState :=
  let buffer := s.buffer ++ output
  if containsSeq COMMAND_END_RESULTS_MESSAGE buffer && s.isProcessingCommand then
    let result := trimChars buffer
    let s1 := { s with buffer := [], isProcessingCommand := false, timeoutPending := false }
    let s2 := match s1.commandQueue with
      | [] => s1
      | currentCommand :: rest =>
          { s1 with
            commandQueue := rest,
            resolved := s1.resolved ++ [(currentCommand.1, result)] }
    if s2.commandQueue.isEmpty then pauseQueue s2 else s2
  else
    { s with buffer := buffer }

/-- Model of `initializeProcess()` (source lines 125-144): reset readiness,
then, unless an abort was requested, replace the subprocess by a freshly
spawned one (observed through `spawnCount`). -/
def initProcess (s : REPLState) : REPLState :=
  let s1 := { s with isReady := false }
  if s1.aborted then s1
  else { s1 with spawnCount := s1.spawnCount + 1 }

/-- Model of the stdout data listener (source lines 146-153): if the chunk
contains the ready marker, set readiness and unblock the pump loop; then
forward the chunk to `handleOutput`. -/
def stdoutData (s : REPLState) (data : List Char) : REPLState :=
  let s1 :=
    if containsSeq READY_MESSAGE data then
      { s with isReady := true, pumpBlocked := false }
    else s
  handleOutput s1 data

/-- Model of the stderr data listener (source lines 159-161): append the
trimmed chunk to the buffer. -/
def stderrData (s : REPLState) (data : List Char) : REPLState :=
  { s with buffer := s.buffer ++ trimChars data }

/-- The synthetic diagnostic appended on an abnormal close. -/
def closeMessage (code : Int) : List Char :=
  ("\n\nHeroku CLI process closed unexpectedly with code " ++ toString code
    ++ ". Restarting...").data

/-- Model of the close listener (source lines 166-185): ignore the event
after an abort; otherwise pause the queue, and either respawn immediately
with a diagnostic (nonzero code) or arm a delayed respawn timer (zero
code). -/
def closeEvent (s : REPLState) (code : Int) : REPLState :=
  if s.aborted then s
  else
    let s1 := pauseQueue s
    if code ≠ 0 then
      initProcess { s1 with buffer := s1.buffer ++ closeMessage code }
    else
      { s1 with pendingCleanRespawns := s1.pendingCleanRespawns + 1 }

/-- Model of the delayed `setTimeout(() => void this.initializeProcess(), 1000)`
respawn timer firing. -/
def delayedRespawnFires (s : REPLState) : REPLState :=
  if 0 < s.pendingCleanRespawns then
    initProcess { s with pendingCleanRespawns := s.pendingCleanRespawns - 1 }
  else s

/-- The synthetic output injected by the per-command timeout handler. -/
def timeoutMessage (t : Nat) : List Char :=
  ("The command failed to complete in " ++ toString t ++ "ms\n").data
    ++ COMMAND_END_RESULTS_MESSAGE ++ "\n".data

/-- Model of the per-command timeout handler (source lines 82-90): when the
armed timer fires, force a respawn and feed the diagnostic plus sentinel
through `handleOutput`. -/
def timeoutFires (s : REPLState) : REPLState :=
  if s.timeoutPending then
    let s1 := { s with timeoutPending := false }
    handleOutput (initProcess s1) (timeoutMessage s1.commandTimeout)
  else s

/-- The message of the error thrown by `executeCommand` after an abort. -/
def abortErrorMessage : List Char :=
  "REPL process has been aborted and cannot execute commands".data

/-- Model of `executeCommand(command)` (source lines 102-114): throw after
an abort; otherwise append a fresh queued command (identified by its
submission index) and unblock the pump loop.  Returns the new state and
either the thrown error or the identifier of the created future. -/
def executeCommand (s : REPLState) (command : List Char) :
    REPLState × Except (List Char) Nat :=
  if s.aborted then (s, Except.error abortErrorMessage)
  else
    let id := s.nextId
    ({ s with
        commandQueue := s.commandQueue ++ [(id, command)],
        nextId := id + 1,
        pumpBlocked := false },
      Except.ok id)

/-- Model of one productive pass of the `Symbol.asyncIterator` pump loop
(source lines 70-94): the loop runs only while not aborted, past the pause
promise, and only when the previously yielded command promise has resolved
(`isProcessingCommand = false`, since `yield nextCommand.promise` awaits
it).  With no head command or no readiness it pauses; otherwise it clears
the buffer, marks processing, writes the head command to stdin and arms the
per-command timer. -/
def pumpStep (s : REPLState) : REPLState :=
  if s.aborted then s
  else if s.pumpBlocked then s
  else if s.isProcessingCommand then s
  else
    match s.commandQueue with
    | [] => pauseQueue s
    | (id, _cmd) :: _ =>
        if s.isReady then
          { s with buffer := [], isProcessingCommand := true,
                   writes := s.writes ++ [id], timeoutPending := true }
        else pauseQueue s

/-- Model of `Symbol.dispose` (source lines 60-62, 226-230): the first call
aborts the controller, whose abort listener clears the queue, unblocks the
pump loop and clears the timer; later calls find the controller already
aborted and do nothing. -/
def dispose (s : REPLState) : REPLState :=
  if s.aborted then s
  else
    { s with aborted := true, commandQueue := [], pumpBlocked := false,
             timeoutPending := false }

/-- External events driving one `HerokuREPL` instance. -/
inductive REPLEvent where
  | submit (command : List Char)
  | pump
  | stdout (data : List Char)
  | stderr (data : List Char)
  | closed (code : Int)
  | cleanRespawnTimer
  | commandTimer
  | disposeCall
deriving DecidableEq

/-- Dispatch one event to its handler. -/
def step (s : REPLState) : REPLEvent → REPLState
  | .submit c => (executeCommand s c).1
  | .pump => pumpStep s
  | .stdout d => stdoutData s d
  | .stderr d => stderrData s d
  | .closed code => closeEvent s code
  | .cleanRespawnTimer => delayedRespawnFires s
  | .commandTimer => timeoutFires s
  | .disposeCall => dispose s

/-- The constructor state (source lines 50-55): pause the queue, then run
`initializeProcess`, which spawns the first subprocess. -/
def initState (t : Nat) : REPLState :=
  { isProcessingCommand := false, isReady := false, aborted := false,
    buffer := [], commandQueue := [], nextId := 0, pumpBlocked := true,
    timeoutPending := false, commandTimeout := t, pendingCleanRespawns := 0,
    spawnCount := 1, resolved := [], writes := [] }

/-- Run an instance with command timeout `t` over a list of events. -/
def run (t : Nat) (evs : List REPLEvent) : REPLState :=
  evs.foldl step (initState t)

/-- Submission indices of the resolved futures, in resolution order. -/
def resolvedIds (s : REPLState) : List Nat := s.resolved.map Prod.fst

/-- Submission indices of the queued commands, in queue order. -/
def queueIds (s : REPLState) : List Nat := s.commandQueue.map Prod.fst

/-- Commands written to stdin whose future has not been resolved: the
commands that are in flight. -/
def inFlightIds (s : REPLState) : List Nat :=
  s.writes.filter (fun i => !((resolvedIds s).contains i))

/-- Modelled from the spec wording of the demultiplexer result: the
contents of a buffer up to and including the first occurrence of the
sentinel.  Used to compare the spec wording against the source, which
takes the whole buffer. -/
def upToSentinel (sent : List Char) : List Char → List Char
  | [] => []
  | a :: t => if startsWith sent (a :: t) then sent else a :: upToSentinel sent t

/-- Inductive invariant of a running session, indexed by the number `k` of
resolved futures and the number `m` of stdin writes: futures resolve in
exact submission order (`resolvedIds = range k`), writes follow submission
order (`writes = range m`) with at most one write outstanding
(`k ≤ m ≤ k + 1`), the queue holds exactly the submitted-but-unresolved
commands in order while the session lives, and the processing flag marks
exactly the outstanding write. -/
structure InvData (s : REPLState) (k m : Nat) : Prop where
  hres : resolvedIds s = List.range k
  hwrites : s.writes = List.range m
  hkm : k ≤ m
  hmk : m ≤ k + 1
  hmn : m ≤ s.nextId
  hqAborted : s.aborted = true → s.commandQueue = []
  hqLive : s.aborted = false → queueIds s = List.range' k (s.nextId - k)
  hflag : s.aborted = false → (s.isProcessingCommand = true ↔ m = k + 1)

/-- A state satisfies the invariant for some indices. -/
def ReplInv (s : REPLState) : Prop := ∃ k m, InvData s k m

/-! ### Lemmas about the string primitives -/

theorem startsWith_iff {p l : List Char} : startsWith p l = true ↔ p <+: l := by
  induction p generalizing l with
  | nil => simp [startsWith, List.nil_prefix]
  | cons a ps ih =>
    cases l with
    | nil => simp [startsWith]
    | cons c cs =>
      simp [startsWith, List.cons_prefix_cons, ih, Bool.and_eq_true, beq_iff_eq]

theorem containsSeq_iff {p l : List Char} : containsSeq p l = true ↔ p <:+: l := by
  induction l with
  | nil => simp [containsSeq, startsWith_iff, List.prefix_nil, List.infix_nil]
  | cons c cs ih =>
    rw [containsSeq]
    simp [Bool.or_eq_true, startsWith_iff, ih, List.infix_cons_iff]

theorem containsSeq_append_right {p l r : List Char}
    (h : containsSeq p r = true) : containsSeq p (l ++ r) = true := by
  rw [containsSeq_iff] at h ⊢
  exact h.trans (List.suffix_append l r).isInfix

theorem containsSeq_append_left {p l r : List Char}
    (h : containsSeq p l = true) : containsSeq p (l ++ r) = true := by
  rw [containsSeq_iff] at h ⊢
  exact h.trans (List.prefix_append l r).isInfix

theorem infix_of_reverses {l₁ l₂ : List Char}
    (h : l₁.reverse <:+: l₂.reverse) : l₁ <:+: l₂ :=
  List.reverse_infix.mp h

theorem dropWhile_head_false {p : Char → Bool} :
    ∀ {l t : List Char} {x : Char}, l.dropWhile p = x :: t → p x = false := by
  intro l
  induction l with
  | nil => intro t x h; simp [List.dropWhile] at h
  | cons c cs ih =>
    intro t x h
    rw [List.dropWhile_cons] at h
    by_cases hc : p c = true
    · rw [if_pos hc] at h; exact ih h
    · rw [if_neg hc] at h
      cases h
      simpa using hc

theorem head?_append_of_ne_nil {l t : List Char} (h : l ≠ []) :
    (l ++ t).head? = l.head? := by
  cases l with
  | nil => exact absurd rfl h
  | cons a u => rfl

theorem trimChars_infix_self (l : List Char) : trimChars l <:+: l := by
  have h1 : l.dropWhile isWs <:+ l := List.dropWhile_suffix isWs
  have h2 : (l.dropWhile isWs).reverse.dropWhile isWs <:+ (l.dropWhile isWs).reverse :=
    List.dropWhile_suffix isWs
  have h3 : trimChars l <+: l.dropWhile isWs := by
    rw [trimChars]
    rcases h2 with ⟨u, hu⟩
    refine ⟨u.reverse, ?_⟩
    rw [← List.reverse_append, hu, List.reverse_reverse]
  exact h3.isInfix.trans h1.isInfix

theorem trimChars_head_nonws {l : List Char} {a : Char}
    (h : (trimChars l).head? = some a) : isWs a = false := by
  have h2 : (l.dropWhile isWs).reverse.dropWhile isWs <:+ (l.dropWhile isWs).reverse :=
    List.dropWhile_suffix isWs
  have h3 : trimChars l <+: l.dropWhile isWs := by
    rw [trimChars]
    rcases h2 with ⟨u, hu⟩
    refine ⟨u.reverse, ?_⟩
    rw [← List.reverse_append, hu, List.reverse_reverse]
  cases htrim : trimChars l with
  | nil => rw [htrim] at h; simp at h
  | cons x t =>
    rw [htrim] at h
    have hxa : x = a := by simpa using h
    rcases h3 with ⟨v, hv⟩
    rw [htrim] at hv
    have hdw : l.dropWhile isWs = x :: (t ++ v) := by rw [← hv]; simp
    rw [← hxa]
    exact dropWhile_head_false hdw

theorem trimChars_getLast_nonws {l : List Char} {b : Char}
    (h : (trimChars l).getLast? = some b) : isWs b = false := by
  rw [trimChars, List.getLast?_reverse] at h
  cases hd : (l.dropWhile isWs).reverse.dropWhile isWs with
  | nil => rw [hd] at h; simp at h
  | cons x t =>
    rw [hd] at h
    simp at h
    subst h
    exact dropWhile_head_false hd

theorem infix_dropWhile_of_head {p : Char → Bool} {a : Char} {pat l : List Char}
    (ha : p a = false) (h : (a :: pat) <:+: l) :
    (a :: pat) <:+: l.dropWhile p := by
  rcases h with ⟨u, v, huv⟩
  subst huv
  induction u with
  | nil =>
    rw [List.nil_append, List.cons_append, List.dropWhile_cons, if_neg (by simp [ha])]
    exact ⟨[], v, by simp⟩
  | cons b u ih =>
    have hshape : (b :: u) ++ (a :: pat) ++ v = b :: (u ++ (a :: pat) ++ v) := by simp
    rw [hshape, List.dropWhile_cons]
    by_cases hb : p b = true
    · rw [if_pos hb]; exact ih
    · rw [if_neg hb]
      exact ⟨b :: u, v, by simp⟩

theorem reverses_of_infix {l₁ l₂ : List Char} (h : l₁ <:+: l₂) :
    l₁.reverse <:+: l₂.reverse := by
  exact
    List.reverse_infix.mpr h

theorem infix_trimChars_of_ends {pat l : List Char}
    (hhead : ∀ a, pat.head? = some a → isWs a = false)
    (hlast : ∀ b, pat.getLast? = some b → isWs b = false)
    (h : pat <:+: l) : pat <:+: trimChars l := by
  cases pat with
  | nil => exact List.nil_infix
  | cons a p =>
    have ha : isWs a = false := hhead a rfl
    have step1 : (a :: p) <:+: l.dropWhile isWs := infix_dropWhile_of_head ha h
    have hrev : (a :: p).reverse <:+: (l.dropWhile isWs).reverse :=
      reverses_of_infix step1
    obtain ⟨b, q, hbq⟩ : ∃ b q, (a :: p).reverse = b :: q := by
      cases hrr : (a :: p).reverse with
      | nil =>
        have hlen := congrArg List.length hrr
        simp at hlen
      | cons b q => exact ⟨b, q, rfl⟩
    have hblast : (a :: p).getLast? = some b := by
      rw [← List.head?_reverse, hbq]
      rfl
    have hb : isWs b = false := hlast b hblast
    rw [hbq] at hrev
    have step2 : (b :: q) <:+: ((l.dropWhile isWs).reverse).dropWhile isWs :=
      infix_dropWhile_of_head hb hrev
    have step3 : (b :: q).reverse <:+:
        (((l.dropWhile isWs).reverse).dropWhile isWs).reverse :=
      reverses_of_infix step2
    have hback : (b :: q).reverse = a :: p := by rw [← hbq, List.reverse_reverse]
    rw [hback] at step3
    rw [trimChars]
    exact step3

/-! ### Characterization of the demultiplexer -/

theorem handleOutput_not_complete {s : REPLState} {out : List Char}
    (h : (containsSeq COMMAND_END_RESULTS_MESSAGE (s.buffer ++ out)
        && s.isProcessingCommand) = false) :
    handleOutput s out = { s with buffer := s.buffer ++ out } := by
  rw [handleOutput]
  rw [if_neg (by simp [h])]

theorem handleOutput_complete_cons {s : REPLState} {out : List Char}
    {i : Nat} {c : List Char} {rest : List (Nat × List Char)}
    (hq : s.commandQueue = (i, c) :: rest)
    (hsent : containsSeq COMMAND_END_RESULTS_MESSAGE (s.buffer ++ out) = true)
    (hproc : s.isProcessingCommand = true) :
    ∃ b : Bool, handleOutput s out =
      { s with
        buffer := []
        isProcessingCommand := false
        timeoutPending := false
        commandQueue := rest
        resolved := s.resolved ++ [(i, trimChars (s.buffer ++ out))]
        pumpBlocked := b } := by
  rw [handleOutput]
  rw [if_pos (by simp [hsent, hproc])]
  simp only [hq]
  by_cases hrest : rest.isEmpty = true
  · refine ⟨true, ?_⟩
    rw [if_pos hrest]
    rfl
  · refine ⟨s.pumpBlocked, ?_⟩
    rw [if_neg hrest]

theorem handleOutput_complete_nilqueue {s : REPLState} {out : List Char}
    (hq : s.commandQueue = [])
    (hsent : containsSeq COMMAND_END_RESULTS_MESSAGE (s.buffer ++ out) = true)
    (hproc : s.isProcessingCommand = true) :
    handleOutput s out = { s with
      buffer := []
      isProcessingCommand := false
      timeoutPending := false
      pumpBlocked := true } := by
  rw [handleOutput]
  rw [if_pos (by simp [hsent, hproc])]
  simp only [hq]
  rfl

/-! ### Preservation of the session invariant -/

theorem invData_of_eq {s s' : REPLState} {k m : Nat} (h : InvData s k m)
    (hres : s'.resolved = s.resolved) (hw : s'.writes = s.writes)
    (hn : s'.nextId = s.nextId) (hab : s'.aborted = s.aborted)
    (hq : s'.commandQueue = s.commandQueue)
    (hp : s'.isProcessingCommand = s.isProcessingCommand) : InvData s' k m := by
  obtain ⟨h1, h2, h3, h4, h5, h6, h7, h8⟩ := h
  refine ⟨?_, ?_, h3, h4, ?_, ?_, ?_, ?_⟩
  · simp only [resolvedIds, hres]; exact h1
  · rw [hw]; exact h2
  · rw [hn]; exact h5
  · intro ha; rw [hq]; exact h6 (by rw [← hab]; exact ha)
  · intro ha; simp only [queueIds, hq, hn]; exact h7 (by rw [← hab]; exact ha)
  · intro ha; rw [hp]; exact h8 (by rw [← hab]; exact ha)

theorem ReplInv_executeCommand {s : REPLState} (c : List Char) (h : ReplInv s) :
    ReplInv (executeCommand s c).1 := by
  obtain ⟨k, m, hd⟩ := h
  by_cases hab : s.aborted = true
  · rw [executeCommand, if_pos hab]
    exact ⟨k, m, hd⟩
  · have hab' : s.aborted = false := by simpa using hab
    rw [executeCommand, if_neg hab]
    obtain ⟨h1, h2, h3, h4, h5, h6, h7, h8⟩ := hd
    have hk : k ≤ s.nextId := le_trans h3 h5
    refine ⟨k, m, ?_, h2, h3, h4, ?_, ?_, ?_, ?_⟩
    · simpa [resolvedIds] using h1
    · exact Nat.le_succ_of_le h5
    · intro ha
      exact absurd (show s.aborted = true from ha) (by simp [hab'])
    · intro _
      have hq := h7 hab'
      simp only [queueIds] at hq ⊢
      rw [List.map_append, hq]
      have h1' : s.nextId + 1 - k = (s.nextId - k) + 1 := by omega
      rw [h1', List.range'_concat]
      have h2' : k + 1 * (s.nextId - k) = s.nextId := by omega
      rw [h2']
      rfl
    · intro _
      exact h8 hab'

theorem ReplInv_pumpStep {s : REPLState} (h : ReplInv s) : ReplInv (pumpStep s) := by
  obtain ⟨k, m, hd⟩ := h
  rw [pumpStep]
  by_cases hab : s.aborted = true
  · rw [if_pos hab]; exact ⟨k, m, hd⟩
  rw [if_neg hab]
  have hab' : s.aborted = false := by simpa using hab
  by_cases hbl : s.pumpBlocked = true
  · rw [if_pos hbl]; exact ⟨k, m, hd⟩
  rw [if_neg hbl]
  by_cases hpr : s.isProcessingCommand = true
  · rw [if_pos hpr]; exact ⟨k, m, hd⟩
  rw [if_neg hpr]
  have hpr' : s.isProcessingCommand = false := by simpa using hpr
  cases hcq : s.commandQueue with
  | nil =>
    exact ⟨k, m, invData_of_eq hd rfl rfl rfl rfl (by rw [pauseQueue, hcq]) rfl⟩
  | cons q rest =>
    obtain ⟨qid, qc⟩ := q
    dsimp only
    by_cases hready : s.isReady = true
    · rw [if_pos hready]
      obtain ⟨h1, h2, h3, h4, h5, h6, h7, h8⟩ := hd
      have hm : m = k := by
        have hiff := h8 hab'
        rw [hpr'] at hiff
        have hne : ¬ (m = k + 1) := fun hmk1 => absurd (hiff.mpr hmk1) (by simp)
        omega
      have hq := h7 hab'
      simp only [queueIds, hcq, List.map_cons] at hq
      have hnk : s.nextId - k = (s.nextId - (k + 1)) + 1 := by
        rcases Nat.eq_zero_or_pos (s.nextId - k) with h0 | hpos
        · rw [h0] at hq; simp at hq
        · omega
      rw [hnk, List.range'_succ] at hq
      obtain ⟨hqid, hrest⟩ := List.cons_eq_cons.mp hq
      have hkn : k ≤ s.nextId := le_trans h3 h5
      refine ⟨k, k + 1, ?_, ?_, Nat.le_succ k, le_refl (k + 1), by dsimp only; omega,
        ?_, ?_, ?_⟩
      · simpa [resolvedIds] using h1
      · show s.writes ++ [qid] = List.range (k + 1)
        rw [h2, hm, hqid, List.range_succ]
      · intro ha
        exact absurd ha (by simp [hab'])
      · intro _
        have hq7 := h7 hab'
        simp only [queueIds, hcq] at hq7 ⊢
        exact hq7
      · intro _
        simp
    · rw [if_neg hready]
      exact ⟨k, m, invData_of_eq hd rfl rfl rfl rfl (by rw [pauseQueue]) rfl⟩

theorem ReplInv_handleOutput {s : REPLState} (out : List Char) (h : ReplInv s) :
    ReplInv (handleOutput s out) := by
  obtain ⟨k, m, hd⟩ := h
  by_cases hcond : (containsSeq COMMAND_END_RESULTS_MESSAGE (s.buffer ++ out)
      && s.isProcessingCommand) = true
  · rw [Bool.and_eq_true] at hcond
    obtain ⟨hsent, hproc⟩ := hcond
    by_cases hab : s.aborted = true
    · have hq : s.commandQueue = [] := hd.hqAborted hab
      rw [handleOutput_complete_nilqueue hq hsent hproc]
      obtain ⟨h1, h2, h3, h4, h5, h6, h7, h8⟩ := hd
      refine ⟨k, m, ?_, h2, h3, h4, h5, ?_, ?_, ?_⟩
      · simpa [resolvedIds] using h1
      · intro _; exact hq
      · intro ha
        exact absurd (show s.aborted = false from ha) (by simp [hab])
      · intro ha
        exact absurd (show s.aborted = false from ha) (by simp [hab])
    · have hab' : s.aborted = false := by simpa using hab
      obtain ⟨h1, h2, h3, h4, h5, h6, h7, h8⟩ := hd
      have hm : m = k + 1 := (h8 hab').mp hproc
      have hkn : k + 1 ≤ s.nextId := hm ▸ h5
      have hq := h7 hab'
      have hnk : s.nextId - k = (s.nextId - (k + 1)) + 1 := by omega
      rw [hnk, List.range'_succ] at hq
      cases hcq : s.commandQueue with
      | nil =>
        simp [queueIds, hcq] at hq
      | cons q rest =>
        obtain ⟨qid, qc⟩ := q
        have hq' : qid :: (rest.map Prod.fst)
            = k :: List.range' (k + 1) (s.nextId - (k + 1)) := by
          rw [← hq]
          simp [queueIds, hcq]
        obtain ⟨hqid, hrest⟩ := List.cons_eq_cons.mp hq'
        obtain ⟨b, hstep⟩ := handleOutput_complete_cons hcq hsent hproc
        rw [hstep]
        refine ⟨k + 1, m, ?_, h2, by omega, by omega, h5, ?_, ?_, ?_⟩
        · show (s.resolved ++ [(qid, trimChars (s.buffer ++ out))]).map Prod.fst
            = List.range (k + 1)
          rw [List.map_append]
          have h1' : s.resolved.map Prod.fst = List.range k := h1
          rw [h1', List.range_succ, hqid]
          rfl
        · intro ha
          exact absurd (show s.aborted = true from ha) (by simp [hab'])
        · intro _
          show rest.map Prod.fst = List.range' (k + 1) (s.nextId - (k + 1))
          exact hrest
        · intro _
          constructor
          · intro hfalse
            exact absurd hfalse (by simp)
          · intro hmk
            omega
  · rw [handleOutput_not_complete (by simpa using hcond)]
    exact ⟨k, m, invData_of_eq hd rfl rfl rfl rfl rfl rfl⟩

theorem ReplInv_initProcess {s : REPLState} (h : ReplInv s) :
    ReplInv (initProcess s) := by
  obtain ⟨k, m, hd⟩ := h
  rw [initProcess]
  by_cases hab : s.aborted = true
  · rw [if_pos (by simpa using hab)]
    exact ⟨k, m, invData_of_eq hd rfl rfl rfl rfl rfl rfl⟩
  · rw [if_neg (by simpa using hab)]
    exact ⟨k, m, invData_of_eq hd rfl rfl rfl rfl rfl rfl⟩

theorem ReplInv_stdoutData {s : REPLState} (d : List Char) (h : ReplInv s) :
    ReplInv (stdoutData s d) := by
  rw [stdoutData]
  by_cases hr : containsSeq READY_MESSAGE d = true
  · rw [if_pos hr]
    apply ReplInv_handleOutput
    obtain ⟨k, m, hd⟩ := h
    exact ⟨k, m, invData_of_eq hd rfl rfl rfl rfl rfl rfl⟩
  · rw [if_neg hr]
    exact ReplInv_handleOutput d h

theorem ReplInv_stderrData {s : REPLState} (d : List Char) (h : ReplInv s) :
    ReplInv (stderrData s d) := by
  obtain ⟨k, m, hd⟩ := h
  exact ⟨k, m, invData_of_eq hd rfl rfl rfl rfl rfl rfl⟩

theorem ReplInv_closeEvent {s : REPLState} (code : Int) (h : ReplInv s) :
    ReplInv (closeEvent s code) := by
  obtain ⟨k, m, hd⟩ := h
  rw [closeEvent]
  by_cases hab : s.aborted = true
  · rw [if_pos hab]
    exact ⟨k, m, hd⟩
  · rw [if_neg hab]
    by_cases hc : code ≠ 0
    · rw [if_pos hc]
      apply ReplInv_initProcess
      exact ⟨k, m, invData_of_eq hd rfl rfl rfl rfl rfl rfl⟩
    · rw [if_neg hc]
      exact ⟨k, m, invData_of_eq hd rfl rfl rfl rfl rfl rfl⟩

theorem ReplInv_delayedRespawnFires {s : REPLState} (h : ReplInv s) :
    ReplInv (delayedRespawnFires s) := by
  obtain ⟨k, m, hd⟩ := h
  rw [delayedRespawnFires]
  by_cases hp : 0 < s.pendingCleanRespawns
  · rw [if_pos hp]
    apply ReplInv_initProcess
    exact ⟨k, m, invData_of_eq hd rfl rfl rfl rfl rfl rfl⟩
  · rw [if_neg hp]
    exact ⟨k, m, hd⟩

theorem ReplInv_timeoutFires {s : REPLState} (h : ReplInv s) :
    ReplInv (timeoutFires s) := by
  obtain ⟨k, m, hd⟩ := h
  rw [timeoutFires]
  by_cases hp : s.timeoutPending = true
  · rw [if_pos hp]
    apply ReplInv_handleOutput
    apply ReplInv_initProcess
    exact ⟨k, m, invData_of_eq hd rfl rfl rfl rfl rfl rfl⟩
  · rw [if_neg hp]
    exact ⟨k, m, hd⟩

theorem ReplInv_dispose {s : REPLState} (h : ReplInv s) : ReplInv (dispose s) := by
  obtain ⟨k, m, hd⟩ := h
  rw [dispose]
  by_cases hab : s.aborted = true
  · rw [if_pos hab]
    exact ⟨k, m, hd⟩
  · rw [if_neg hab]
    obtain ⟨h1, h2, h3, h4, h5, h6, h7, h8⟩ := hd
    refine ⟨k, m, ?_, h2, h3, h4, h5, ?_, ?_, ?_⟩
    · simpa [resolvedIds] using h1
    · intro _; rfl
    · intro ha
      exact absurd (show (true : Bool) = false from ha) (by simp)
    · intro ha
      exact absurd (show (true : Bool) = false from ha) (by simp)

theorem ReplInv_step (s : REPLState) (e : REPLEvent) (h : ReplInv s) :
    ReplInv (step s e) := by
  cases e with
  | submit c => exact ReplInv_executeCommand c h
  | pump => exact ReplInv_pumpStep h
  | stdout d => exact ReplInv_stdoutData d h
  | stderr d => exact ReplInv_stderrData d h
  | closed code => exact ReplInv_closeEvent code h
  | cleanRespawnTimer => exact ReplInv_delayedRespawnFires h
  | commandTimer => exact ReplInv_timeoutFires h
  | disposeCall => exact ReplInv_dispose h

theorem ReplInv_initState (t : Nat) : ReplInv (initState t) := by
  refine ⟨0, 0, ?_, ?_, le_refl 0, by omega, by omega, ?_, ?_, ?_⟩
  · rfl
  · rfl
  · intro ha
    exact absurd (show (false : Bool) = true from ha) (by simp)
  · intro _; rfl
  · intro _
    constructor
    · intro hfalse
      exact absurd hfalse (by simp [initState])
    · intro h01
      omega

theorem ReplInv_foldl (evs : List REPLEvent) :
    ∀ s : REPLState, ReplInv s → ReplInv (evs.foldl step s) := by
  induction evs with
  | nil => intro s h; exact h
  | cons e evs ih =>
    intro s h
    exact ih (step s e) (ReplInv_step s e h)

theorem ReplInv_run (t : Nat) (evs : List REPLEvent) : ReplInv (run t evs) :=
  ReplInv_foldl evs (initState t) (ReplInv_initState t)

/-! ### Claim theorems -/

/-- C1: over every event trace of a session — every sequence of commands
submitted via `executeCommand`, interleaved with arbitrarily chunked
subprocess output, timer firings, closes and a possible disposal — the
resolved futures form an initial segment of the submission order
(`resolvedIds = range k`: they resolve in submission order, never
interleaved and never skipping), and at most one submitted command is in
flight (written to stdin with its future not yet resolved) at any time. -/
theorem executeCommand_fifo_and_single_inflight (t : Nat) (evs : List REPLEvent) :
    (∃ k, resolvedIds (run t evs) = List.range k) ∧
    (inFlightIds (run t evs)).length ≤ 1 := by
  obtain ⟨k, m, hd⟩ := ReplInv_run t evs
  obtain ⟨h1, h2, h3, h4, h5, h6, h7, h8⟩ := hd
  refine ⟨⟨k, h1⟩, ?_⟩
  rw [inFlightIds, h2, h1]
  have hnil : (List.range k).filter (fun i => !((List.range k).contains i)) = [] := by
    apply List.filter_eq_nil_iff.mpr
    intro a ha
    have hmem : (List.range k).contains a = true := List.elem_iff.mpr ha
    simp only [hmem, Bool.not_true, Bool.false_eq_true, not_false_eq_true]
  have hsub : m = k ∨ m = k + 1 := by omega
  rcases hsub with h | h
  · subst h
    rw [hnil]
    simp
  · subst h
    rw [List.range_succ, List.filter_append, hnil]
    have hk : (List.range k).contains k = false := by
      rw [← Bool.not_eq_true]
      intro hc
      exact List.not_mem_range_self (List.elem_iff.mp hc)
    simp [List.filter_cons, hk]

/-- C2 (amended): whenever a command is in flight and the buffer comes to
contain the completion sentinel, the head command's future resolves with
the entire buffer contents — everything up to and including the sentinel
together with any text that follows it — trimmed of surrounding
whitespace; the buffer is then cleared, the in-flight flag cleared, the
per-command timeout cancelled, and the head of the queue popped. -/
theorem handleOutput_resolves_head (s : REPLState) (out : List Char)
    (i : Nat) (c : List Char) (rest : List (Nat × List Char))
    (hq : s.commandQueue = (i, c) :: rest)
    (hproc : s.isProcessingCommand = true)
    (hsent : containsSeq COMMAND_END_RESULTS_MESSAGE (s.buffer ++ out) = true) :
    (handleOutput s out).resolved = s.resolved ++ [(i, trimChars (s.buffer ++ out))]
      ∧ (handleOutput s out).buffer = []
      ∧ (handleOutput s out).isProcessingCommand = false
      ∧ (handleOutput s out).timeoutPending = false
      ∧ (handleOutput s out).commandQueue = rest := by
  obtain ⟨b, hstep⟩ := handleOutput_complete_cons hq hsent hproc
  rw [hstep]
  exact ⟨rfl, rfl, rfl, rfl, rfl⟩

theorem handleOutput_resolves_head_witness :
    ((run 500 [.stdout "heroku >".data, .submit "apps".data, .pump]).commandQueue
        = [(0, "apps".data)]
      ∧ (run 500 [.stdout "heroku >".data, .submit "apps".data,
          .pump]).isProcessingCommand = true)
    ∧ (handleOutput (run 500 [.stdout "heroku >".data, .submit "apps".data, .pump])
        "Output\n<<<END RESULTS>>>".data).resolved
      = (run 500 [.stdout "heroku >".data, .submit "apps".data, .pump]).resolved
        ++ [(0, trimChars
            ((run 500 [.stdout "heroku >".data, .submit "apps".data, .pump]).buffer
              ++ "Output\n<<<END RESULTS>>>".data))] :=
  ⟨⟨by decide, by decide⟩,
    (handleOutput_resolves_head _ _ 0 "apps".data [] (by decide) (by decide)
      (by decide)).1⟩

/-- C2 (counterexample): when the delivered output continues past the
sentinel, the future resolves with the whole trimmed buffer — including
the text after the sentinel — and not with the contents of the buffer up
to and including the sentinel. -/
theorem handleOutput_not_upToSentinel :
    (run 500 [.stdout "heroku >".data, .submit "apps".data, .pump,
        .stdout "ok <<<END RESULTS>>> trailing".data]).resolved
      = [(0, "ok <<<END RESULTS>>> trailing".data)]
    ∧ "ok <<<END RESULTS>>> trailing".data
      ≠ trimChars (upToSentinel COMMAND_END_RESULTS_MESSAGE
          "ok <<<END RESULTS>>> trailing".data) := by
  constructor
  · decide
  · decide

/-- C3 (amended): on every stdout data event the received text is appended
to the output buffer and forwarded to the demultiplexer, but readiness is
decided on the chunk alone: the readiness flag becomes true (and the pump
loop is unblocked) exactly when the single delivered chunk contains the
ready marker; otherwise the flag keeps its previous value, even when the
marker is present in the cumulative buffer. -/
theorem stdoutData_ready_per_chunk (s : REPLState) (d : List Char)
    (hnores : (containsSeq COMMAND_END_RESULTS_MESSAGE (s.buffer ++ d)
        && s.isProcessingCommand) = false) :
    (stdoutData s d).buffer = s.buffer ++ d
      ∧ (stdoutData s d).isReady = (containsSeq READY_MESSAGE d || s.isReady)
      ∧ (containsSeq READY_MESSAGE d = true → (stdoutData s d).pumpBlocked = false) := by
  rw [stdoutData]
  by_cases hr : containsSeq READY_MESSAGE d = true
  · rw [if_pos hr]
    rw [handleOutput_not_complete (by simpa using hnores)]
    refine ⟨rfl, by simp [hr], fun _ => rfl⟩
  · rw [if_neg hr]
    rw [handleOutput_not_complete hnores]
    have hr' : containsSeq READY_MESSAGE d = false := by
      rw [← Bool.not_eq_true]; exact hr
    refine ⟨rfl, by simp [hr'], fun hcontr => absurd hcontr hr⟩

theorem stdoutData_ready_per_chunk_witness :
    ((containsSeq COMMAND_END_RESULTS_MESSAGE
        ((initState 500).buffer ++ "heroku >".data)
        && (initState 500).isProcessingCommand) = false)
    ∧ (stdoutData (initState 500) "heroku >".data).isReady
        = (containsSeq READY_MESSAGE "heroku >".data || (initState 500).isReady) :=
  ⟨by decide, (stdoutData_ready_per_chunk (initState 500) "heroku >".data
    (by decide)).2.1⟩

/-- C3 (counterexample): the ready marker split across two stdout chunks is
present in the cumulative buffer, yet the readiness flag stays false — the
source checks the chunk, not the buffer. -/
theorem stdoutData_split_ready_marker_missed :
    (run 500 [.stdout "hero".data, .stdout "ku >".data]).isReady = false
    ∧ containsSeq READY_MESSAGE
        (run 500 [.stdout "hero".data, .stdout "ku >".data]).buffer = true := by
  constructor
  · decide
  · decide

/-- Field bookkeeping for `initProcess`: it only touches `isReady` and
(when not aborted) `spawnCount`. -/
theorem initProcess_fields (s : REPLState) :
    (initProcess s).buffer = s.buffer
      ∧ (initProcess s).commandQueue = s.commandQueue
      ∧ (initProcess s).isProcessingCommand = s.isProcessingCommand
      ∧ (initProcess s).resolved = s.resolved
      ∧ (initProcess s).aborted = s.aborted
      ∧ (initProcess s).isReady = false
      ∧ (initProcess s).timeoutPending = s.timeoutPending
      ∧ (initProcess s).writes = s.writes
      ∧ (initProcess s).commandTimeout = s.commandTimeout := by
  rw [initProcess]
  by_cases hab : s.aborted = true
  · rw [if_pos (by simpa using hab)]
    exact ⟨rfl, rfl, rfl, rfl, rfl, rfl, rfl, rfl, rfl⟩
  · rw [if_neg (by simpa using hab)]
    exact ⟨rfl, rfl, rfl, rfl, rfl, rfl, rfl, rfl, rfl⟩

theorem initProcess_spawnCount_of_live {s : REPLState} (h : s.aborted = false) :
    (initProcess s).spawnCount = s.spawnCount + 1 := by
  rw [initProcess, if_neg (by simp [h])]

theorem initProcess_of_disposed {s : REPLState} (h : s.aborted = true) :
    initProcess s = { s with isReady := false } := by
  rw [initProcess, if_pos (by simpa using h)]

/-- C6: when the subprocess closes and the session is not disposed: a
nonzero exit code appends the synthetic diagnostic line to the output
buffer and respawns immediately (one extra spawn, readiness reset); a zero
exit code leaves the buffer and spawn count untouched and instead arms one
delayed respawn timer, whose later firing performs the spawn. -/
theorem closeEvent_respawn_policy (s : REPLState) (code : Int)
    (hab : s.aborted = false) :
    (code ≠ 0 →
      (closeEvent s code).spawnCount = s.spawnCount + 1
        ∧ (closeEvent s code).buffer = s.buffer ++ closeMessage code
        ∧ (closeEvent s code).isReady = false
        ∧ (closeEvent s code).pendingCleanRespawns = s.pendingCleanRespawns)
    ∧ ((closeEvent s 0).spawnCount = s.spawnCount
        ∧ (closeEvent s 0).buffer = s.buffer
        ∧ (closeEvent s 0).pendingCleanRespawns = s.pendingCleanRespawns + 1
        ∧ (delayedRespawnFires (closeEvent s 0)).spawnCount = s.spawnCount + 1) := by
  constructor
  · intro hc
    refine ⟨?_, ?_, ?_, ?_⟩
    · simp [closeEvent, pauseQueue, initProcess, hab, hc]
    · simp [closeEvent, pauseQueue, initProcess, hab, hc]
    · simp [closeEvent, pauseQueue, initProcess, hab, hc]
    · simp [closeEvent, pauseQueue, initProcess, hab, hc]
  · refine ⟨?_, ?_, ?_, ?_⟩
    · simp [closeEvent, pauseQueue, hab]
    · simp [closeEvent, pauseQueue, hab]
    · simp [closeEvent, pauseQueue, hab]
    · simp [closeEvent, delayedRespawnFires, pauseQueue, initProcess, hab]

theorem closeEvent_respawn_policy_witness :
    ((initState 500).aborted = false)
    ∧ ((1 : Int) ≠ 0 →
        (closeEvent (initState 500) 1).spawnCount = (initState 500).spawnCount + 1
          ∧ (closeEvent (initState 500) 1).buffer
              = (initState 500).buffer ++ closeMessage 1
          ∧ (closeEvent (initState 500) 1).isReady = false
          ∧ (closeEvent (initState 500) 1).pendingCleanRespawns
              = (initState 500).pendingCleanRespawns)
    ∧ ((closeEvent (initState 500) 0).spawnCount = (initState 500).spawnCount
        ∧ (closeEvent (initState 500) 0).buffer = (initState 500).buffer
        ∧ (closeEvent (initState 500) 0).pendingCleanRespawns
            = (initState 500).pendingCleanRespawns + 1
        ∧ (delayedRespawnFires (closeEvent (initState 500) 0)).spawnCount
            = (initState 500).spawnCount + 1) :=
  ⟨by decide, (closeEvent_respawn_policy (initState 500) 1 (by decide)).1,
    (closeEvent_respawn_policy (initState 500) 1 (by decide)).2⟩

theorem handleOutput_spawnCount_aborted (s : REPLState) (out : List Char) :
    (handleOutput s out).spawnCount = s.spawnCount
      ∧ (handleOutput s out).aborted = s.aborted := by
  by_cases hcond : (containsSeq COMMAND_END_RESULTS_MESSAGE (s.buffer ++ out)
      && s.isProcessingCommand) = true
  · rw [Bool.and_eq_true] at hcond
    obtain ⟨hsent, hproc⟩ := hcond
    cases hcq : s.commandQueue with
    | nil =>
      rw [handleOutput_complete_nilqueue hcq hsent hproc]
      exact ⟨rfl, rfl⟩
    | cons q rest =>
      obtain ⟨qid, qc⟩ := q
      obtain ⟨b, hstep⟩ := handleOutput_complete_cons hcq hsent hproc
      rw [hstep]
      exact ⟨rfl, rfl⟩
  · rw [handleOutput_not_complete (by simpa using hcond)]
    exact ⟨rfl, rfl⟩

theorem step_disposed (s : REPLState) (e : REPLEvent) (h : s.aborted = true) :
    (step s e).spawnCount = s.spawnCount ∧ (step s e).aborted = true := by
  cases e with
  | submit c =>
    show (executeCommand s c).1.spawnCount = s.spawnCount
      ∧ (executeCommand s c).1.aborted = true
    rw [executeCommand, if_pos h]
    exact ⟨rfl, h⟩
  | pump =>
    show (pumpStep s).spawnCount = s.spawnCount ∧ (pumpStep s).aborted = true
    rw [pumpStep, if_pos h]
    exact ⟨rfl, h⟩
  | stdout d =>
    show (stdoutData s d).spawnCount = s.spawnCount ∧ (stdoutData s d).aborted = true
    rw [stdoutData]
    by_cases hr : containsSeq READY_MESSAGE d = true
    · rw [if_pos hr]
      constructor
      · exact (handleOutput_spawnCount_aborted _ _).1
      · rw [(handleOutput_spawnCount_aborted _ _).2]
        exact h
    · rw [if_neg hr]
      constructor
      · exact (handleOutput_spawnCount_aborted _ _).1
      · rw [(handleOutput_spawnCount_aborted _ _).2]
        exact h
  | stderr d => exact ⟨rfl, h⟩
  | closed code =>
    show (closeEvent s code).spawnCount = s.spawnCount ∧ (closeEvent s code).aborted = true
    rw [closeEvent, if_pos h]
    exact ⟨rfl, h⟩
  | cleanRespawnTimer =>
    show (delayedRespawnFires s).spawnCount = s.spawnCount
      ∧ (delayedRespawnFires s).aborted = true
    rw [delayedRespawnFires]
    by_cases hp : 0 < s.pendingCleanRespawns
    · rw [if_pos hp, initProcess_of_disposed
        (show ({ s with pendingCleanRespawns := s.pendingCleanRespawns - 1 }
          : REPLState).aborted = true from h)]
      exact ⟨rfl, h⟩
    · rw [if_neg hp]
      exact ⟨rfl, h⟩
  | commandTimer =>
    show (timeoutFires s).spawnCount = s.spawnCount ∧ (timeoutFires s).aborted = true
    rw [timeoutFires]
    by_cases hp : s.timeoutPending = true
    · rw [if_pos hp]
      dsimp only
      rw [initProcess_of_disposed
        (show ({ s with timeoutPending := false } : REPLState).aborted = true from h)]
      constructor
      · exact (handleOutput_spawnCount_aborted _ _).1
      · rw [(handleOutput_spawnCount_aborted _ _).2]
        exact h
    · rw [if_neg hp]
      exact ⟨rfl, h⟩
  | disposeCall =>
    show (dispose s).spawnCount = s.spawnCount ∧ (dispose s).aborted = true
    rw [dispose, if_pos h]
    exact ⟨rfl, h⟩

theorem foldl_disposed (evs : List REPLEvent) :
    ∀ s : REPLState, s.aborted = true →
      (evs.foldl step s).spawnCount = s.spawnCount
        ∧ (evs.foldl step s).aborted = true := by
  induction evs with
  | nil => intro s h; exact ⟨rfl, h⟩
  | cons e evs ih =>
    intro s h
    obtain ⟨h1, h2⟩ := step_disposed s e h
    obtain ⟨h3, h4⟩ := ih (step s e) h2
    exact ⟨h3.trans h1, h4⟩

/-- C7 (amended): after the session has been disposed no subprocess is
ever spawned again — every later event, subprocess exits included, leaves
the spawn count unchanged and the session disposed, and a close event is a
complete no-op — but a call to the spawn operation itself is not a
complete no-op: it spawns no process and changes nothing except resetting
the readiness flag to false. -/
theorem no_respawn_after_dispose (s : REPLState) (h : s.aborted = true) :
    (∀ evs : List REPLEvent,
      (evs.foldl step s).spawnCount = s.spawnCount
        ∧ (evs.foldl step s).aborted = true)
    ∧ initProcess s = { s with isReady := false }
    ∧ (∀ code : Int, closeEvent s code = s) := by
  refine ⟨fun evs => foldl_disposed evs s h, initProcess_of_disposed h, ?_⟩
  intro code
  rw [closeEvent, if_pos h]

theorem no_respawn_after_dispose_witness :
    ((dispose (initState 500)).aborted = true)
    ∧ initProcess (dispose (initState 500))
        = { dispose (initState 500) with isReady := false } :=
  ⟨by decide, (no_respawn_after_dispose _ (by decide)).2.1⟩

/-- C7 (counterexample): a session that observed the ready marker, then a
clean close, then disposal, still has the readiness flag set; calling the
spawn operation on it changes the state (readiness drops to false), so the
call is not a no-op, even though nothing is spawned. -/
theorem initProcess_after_dispose_not_noop :
    (run 500 [.stdout "heroku >".data, .closed 0, .disposeCall]).aborted = true
    ∧ (run 500 [.stdout "heroku >".data, .closed 0, .disposeCall]).isReady = true
    ∧ initProcess (run 500 [.stdout "heroku >".data, .closed 0, .disposeCall])
        ≠ run 500 [.stdout "heroku >".data, .closed 0, .disposeCall] := by
  exact ⟨by decide, by decide, by decide⟩

/-- C8: every call to `executeCommand` made after the session has been
disposed returns the state unchanged — the command is never enqueued —
together with the session-terminated rejection. -/
theorem executeCommand_after_dispose (s : REPLState) (c : List Char)
    (h : s.aborted = true) :
    executeCommand s c = (s, Except.error abortErrorMessage) := by
  rw [executeCommand, if_pos h]

theorem executeCommand_after_dispose_witness :
    ((dispose (initState 500)).aborted = true)
    ∧ executeCommand (dispose (initState 500)) "apps".data
        = (dispose (initState 500), Except.error abortErrorMessage) :=
  ⟨by decide, executeCommand_after_dispose _ _ (by decide)⟩

/-- C9: disposal discards the queued commands without resolving their
futures (the resolution ledger is unchanged), clears the pending
per-command timer, leaves the in-flight flag as it was — the in-flight
command's future is neither resolved nor rejected — and a second disposal
changes nothing. -/
theorem dispose_discards_and_idempotent (s : REPLState) (h : s.aborted = false) :
    (dispose s).commandQueue = []
      ∧ (dispose s).resolved = s.resolved
      ∧ (dispose s).timeoutPending = false
      ∧ (dispose s).isProcessingCommand = s.isProcessingCommand
      ∧ (dispose s).writes = s.writes
      ∧ dispose (dispose s) = dispose s := by
  have h1 : dispose s = { s with
      aborted := true
      commandQueue := []
      pumpBlocked := false
      timeoutPending := false } := by
    rw [dispose, if_neg (by simp [h])]
  rw [h1]
  refine ⟨rfl, rfl, rfl, rfl, rfl, ?_⟩
  rw [dispose, if_pos rfl]

theorem dispose_discards_and_idempotent_witness :
    ((run 500 [.stdout "heroku >".data, .submit "apps".data, .pump]).aborted = false)
    ∧ ((dispose (run 500 [.stdout "heroku >".data, .submit "apps".data,
          .pump])).commandQueue = []
      ∧ (dispose (run 500 [.stdout "heroku >".data, .submit "apps".data,
          .pump])).resolved
        = (run 500 [.stdout "heroku >".data, .submit "apps".data, .pump]).resolved
      ∧ (dispose (run 500 [.stdout "heroku >".data, .submit "apps".data,
          .pump])).timeoutPending = false
      ∧ (dispose (run 500 [.stdout "heroku >".data, .submit "apps".data,
          .pump])).isProcessingCommand
        = (run 500 [.stdout "heroku >".data, .submit "apps".data,
            .pump]).isProcessingCommand
      ∧ (dispose (run 500 [.stdout "heroku >".data, .submit "apps".data,
          .pump])).writes
        = (run 500 [.stdout "heroku >".data, .submit "apps".data, .pump]).writes
      ∧ dispose (dispose (run 500 [.stdout "heroku >".data, .submit "apps".data,
          .pump]))
        = dispose (run 500 [.stdout "heroku >".data, .submit "apps".data, .pump])) :=
  ⟨by decide, dispose_discards_and_idempotent _ (by decide)⟩

theorem timeoutMessage_eq (t : Nat) :
    timeoutMessage t = "The command failed to complete in ".data
      ++ ((toString t).data ++ ("ms\n".data
        ++ (COMMAND_END_RESULTS_MESSAGE ++ "\n".data))) := by
  rw [timeoutMessage, String.data_append, String.data_append]
  simp [List.append_assoc]

theorem sentinel_in_timeoutMessage (t : Nat) :
    containsSeq COMMAND_END_RESULTS_MESSAGE (timeoutMessage t) = true := by
  rw [containsSeq_iff, timeoutMessage_eq]
  refine ⟨"The command failed to complete in ".data ++ ((toString t).data
    ++ "ms\n".data), "\n".data, ?_⟩
  simp [List.append_assoc]

theorem diagnostic_prefix_timeoutMessage (t : Nat) :
    "The command failed to complete in".data <+: timeoutMessage t := by
  rw [timeoutMessage_eq]
  have h1 : startsWith "The command failed to complete in".data
      "The command failed to complete in ".data = true := by decide
  exact (startsWith_iff.mp h1).trans (List.prefix_append _ _)

/-- C10: when the timeout fires for the in-flight command, the value its
future resolves with is the trim of the buffer contents accumulated so far
with the synthetic diagnostic-plus-sentinel text appended — the diagnostic
extends the buffer rather than replacing it, so the trimmed prior
stdout/stderr output is contained in the result. -/
theorem timeoutFires_keeps_buffered_output (s : REPLState) (i : Nat)
    (c : List Char) (rest : List (Nat × List Char))
    (hto : s.timeoutPending = true)
    (hproc : s.isProcessingCommand = true)
    (hq : s.commandQueue = (i, c) :: rest) :
    (timeoutFires s).resolved
      = s.resolved ++ [(i, trimChars (s.buffer ++ timeoutMessage s.commandTimeout))]
    ∧ trimChars s.buffer <:+: trimChars (s.buffer ++ timeoutMessage s.commandTimeout) := by
  constructor
  · rw [timeoutFires, if_pos hto]
    dsimp only
    show (handleOutput (initProcess { s with timeoutPending := false })
      (timeoutMessage s.commandTimeout)).resolved = _
    have hqX : (initProcess { s with timeoutPending := false }).commandQueue
        = (i, c) :: rest := by
      rw [(initProcess_fields _).2.1]
      exact hq
    have hbX : (initProcess { s with timeoutPending := false }).buffer = s.buffer :=
      (initProcess_fields _).1
    have hprX : (initProcess { s with timeoutPending := false }).isProcessingCommand
        = true := by
      rw [(initProcess_fields _).2.2.1]
      exact hproc
    have hsentX : containsSeq COMMAND_END_RESULTS_MESSAGE
        ((initProcess { s with timeoutPending := false }).buffer
          ++ timeoutMessage s.commandTimeout) = true := by
      rw [hbX]
      exact containsSeq_append_right (sentinel_in_timeoutMessage _)
    obtain ⟨b, hstep⟩ := handleOutput_complete_cons hqX hsentX hprX
    rw [hstep]
    have hresX : (initProcess { s with timeoutPending := false }).resolved
        = s.resolved := (initProcess_fields _).2.2.2.1
    rw [hresX, hbX]
  · exact infix_trimChars_of_ends
      (fun a ha => trimChars_head_nonws ha)
      (fun b hb => trimChars_getLast_nonws hb)
      ((trimChars_infix_self s.buffer).trans (List.prefix_append s.buffer _).isInfix)

theorem timeoutFires_keeps_buffered_output_witness :
    ((run 500 [.stdout "heroku >".data, .submit "apps".data, .pump,
        .stdout "partial out".data]).timeoutPending = true
      ∧ (run 500 [.stdout "heroku >".data, .submit "apps".data, .pump,
          .stdout "partial out".data]).isProcessingCommand = true
      ∧ (run 500 [.stdout "heroku >".data, .submit "apps".data, .pump,
          .stdout "partial out".data]).commandQueue = [(0, "apps".data)])
    ∧ (timeoutFires (run 500 [.stdout "heroku >".data, .submit "apps".data, .pump,
          .stdout "partial out".data])).resolved
      = (run 500 [.stdout "heroku >".data, .submit "apps".data, .pump,
          .stdout "partial out".data]).resolved
        ++ [(0, trimChars ((run 500 [.stdout "heroku >".data, .submit "apps".data,
            .pump, .stdout "partial out".data]).buffer
          ++ timeoutMessage (run 500 [.stdout "heroku >".data, .submit "apps".data,
            .pump, .stdout "partial out".data]).commandTimeout))] :=
  ⟨⟨by decide, by decide, by decide⟩,
    (timeoutFires_keeps_buffered_output _ 0 "apps".data [] (by decide) (by decide)
      (by decide)).1⟩

theorem handleOutput_isReady (s : REPLState) (out : List Char) :
    (handleOutput s out).isReady = s.isReady := by
  by_cases hcond : (containsSeq COMMAND_END_RESULTS_MESSAGE (s.buffer ++ out)
      && s.isProcessingCommand) = true
  · rw [Bool.and_eq_true] at hcond
    obtain ⟨hsent, hproc⟩ := hcond
    cases hcq : s.commandQueue with
    | nil =>
      rw [handleOutput_complete_nilqueue hcq hsent hproc]
    | cons q rest =>
      obtain ⟨qid, qc⟩ := q
      obtain ⟨b, hstep⟩ := handleOutput_complete_cons hcq hsent hproc
      rw [hstep]
  · rw [handleOutput_not_complete (by simpa using hcond)]

theorem timeoutFires_core (s : REPLState) (i : Nat) (c : List Char)
    (rest : List (Nat × List Char))
    (hto : s.timeoutPending = true)
    (hproc : s.isProcessingCommand = true)
    (hq : s.commandQueue = (i, c) :: rest) :
    (timeoutFires s).resolved
      = s.resolved ++ [(i, trimChars (s.buffer ++ timeoutMessage s.commandTimeout))]
    ∧ (timeoutFires s).isProcessingCommand = false
    ∧ (timeoutFires s).isReady = false
    ∧ (s.aborted = false → (timeoutFires s).spawnCount = s.spawnCount + 1) := by
  rw [timeoutFires, if_pos hto]
  dsimp only
  have hqX : (initProcess { s with timeoutPending := false }).commandQueue
      = (i, c) :: rest := by
    rw [(initProcess_fields _).2.1]
    exact hq
  have hbX : (initProcess { s with timeoutPending := false }).buffer = s.buffer :=
    (initProcess_fields _).1
  have hprX : (initProcess { s with timeoutPending := false }).isProcessingCommand
      = true := by
    rw [(initProcess_fields _).2.2.1]
    exact hproc
  have hsentX : containsSeq COMMAND_END_RESULTS_MESSAGE
      ((initProcess { s with timeoutPending := false }).buffer
        ++ timeoutMessage s.commandTimeout) = true := by
    rw [hbX]
    exact containsSeq_append_right (sentinel_in_timeoutMessage _)
  have hresX : (initProcess { s with timeoutPending := false }).resolved
      = s.resolved := (initProcess_fields _).2.2.2.1
  obtain ⟨b, hstep⟩ := handleOutput_complete_cons hqX hsentX hprX
  refine ⟨?_, ?_, ?_, ?_⟩
  · show (handleOutput (initProcess { s with timeoutPending := false })
      (timeoutMessage s.commandTimeout)).resolved = _
    rw [hstep, hresX, hbX]
  · show (handleOutput (initProcess { s with timeoutPending := false })
      (timeoutMessage s.commandTimeout)).isProcessingCommand = false
    rw [hstep]
  · show (handleOutput (initProcess { s with timeoutPending := false })
      (timeoutMessage s.commandTimeout)).isReady = false
    rw [handleOutput_isReady]
    exact (initProcess_fields _).2.2.2.2.2.1
  · intro hab
    show (handleOutput (initProcess { s with timeoutPending := false })
      (timeoutMessage s.commandTimeout)).spawnCount = s.spawnCount + 1
    rw [(handleOutput_spawnCount_aborted _ _).1]
    exact initProcess_spawnCount_of_live hab

theorem diagnostic_head_nonws :
    ∀ a : Char, ("The command failed to complete in".data).head? = some a
      → isWs a = false := by
  intro a ha
  rw [show ("The command failed to complete in".data).head? = some 'T' by decide] at ha
  injection ha with h2
  subst h2
  decide

theorem diagnostic_getLast_nonws :
    ∀ b : Char, ("The command failed to complete in".data).getLast? = some b
      → isWs b = false := by
  intro b hb
  rw [show ("The command failed to complete in".data).getLast? = some 'n' by
    decide] at hb
  injection hb with h2
  subst h2
  decide

/-- C5: when the per-command timeout fires for the in-flight command, that
command's future resolves — it is not rejected, the only rejection path in
the class being post-disposal submission — with a result containing the
timeout diagnostic text; a subprocess respawn is forced (the spawn count
grows, readiness resets, the in-flight flag clears); and the session
recovers: in a session where a command times out, a subsequently submitted
command is still written to the new subprocess and completes normally. -/
theorem timeoutFires_resolves_and_recovers (s : REPLState) (i : Nat)
    (c : List Char) (rest : List (Nat × List Char))
    (hto : s.timeoutPending = true)
    (hproc : s.isProcessingCommand = true)
    (hq : s.commandQueue = (i, c) :: rest)
    (hab : s.aborted = false) :
    ((∃ v, (timeoutFires s).resolved = s.resolved ++ [(i, v)]
        ∧ containsSeq "The command failed to complete in".data v = true)
      ∧ (timeoutFires s).spawnCount = s.spawnCount + 1
      ∧ (timeoutFires s).isProcessingCommand = false
      ∧ (timeoutFires s).isReady = false)
    ∧ (run 500 [.stdout "heroku >".data, .submit "status".data, .pump, .commandTimer,
        .stdout "heroku >".data, .submit "apps".data, .pump,
        .stdout "ok\n<<<END RESULTS>>>".data]).resolved
      = [(0, "The command failed to complete in 500ms\n<<<END RESULTS>>>".data),
         (1, "ok\n<<<END RESULTS>>>".data)] := by
  obtain ⟨h1, h2, h3, h4⟩ := timeoutFires_core s i c rest hto hproc hq
  refine ⟨⟨⟨trimChars (s.buffer ++ timeoutMessage s.commandTimeout), h1, ?_⟩,
    h4 hab, h2, h3⟩, by decide⟩
  rw [containsSeq_iff]
  refine infix_trimChars_of_ends diagnostic_head_nonws diagnostic_getLast_nonws ?_
  exact ((diagnostic_prefix_timeoutMessage s.commandTimeout).isInfix).trans
    (List.suffix_append s.buffer _).isInfix

theorem timeoutFires_resolves_and_recovers_witness :
    ((run 500 [.stdout "heroku >".data, .submit "status".data,
        .pump]).timeoutPending = true
      ∧ (run 500 [.stdout "heroku >".data, .submit "status".data,
          .pump]).isProcessingCommand = true
      ∧ (run 500 [.stdout "heroku >".data, .submit "status".data,
          .pump]).commandQueue = [(0, "status".data)]
      ∧ (run 500 [.stdout "heroku >".data, .submit "status".data,
          .pump]).aborted = false)
    ∧ ((∃ v, (timeoutFires (run 500 [.stdout "heroku >".data,
          .submit "status".data, .pump])).resolved
        = (run 500 [.stdout "heroku >".data, .submit "status".data,
            .pump]).resolved ++ [(0, v)]
        ∧ containsSeq "The command failed to complete in".data v = true)
      ∧ (timeoutFires (run 500 [.stdout "heroku >".data, .submit "status".data,
          .pump])).spawnCount
        = (run 500 [.stdout "heroku >".data, .submit "status".data,
            .pump]).spawnCount + 1) :=
  ⟨⟨by decide, by decide, by decide, by decide⟩,
    ⟨((timeoutFires_resolves_and_recovers _ 0 "status".data [] (by decide)
        (by decide) (by decide) (by decide)).1).1,
      (((timeoutFires_resolves_and_recovers _ 0 "status".data [] (by decide)
        (by decide) (by decide) (by decide)).1).2).1⟩⟩

theorem foldl_stdoutData_of_not_processing (cs : List (List Char)) :
    ∀ s : REPLState, s.isProcessingCommand = false →
      (cs.foldl stdoutData s).resolved = s.resolved
        ∧ (cs.foldl stdoutData s).isProcessingCommand = false := by
  induction cs with
  | nil =>
    intro s h
    exact ⟨rfl, h⟩
  | cons d cs ih =>
    intro s h
    have hstep : (stdoutData s d).resolved = s.resolved
        ∧ (stdoutData s d).isProcessingCommand = false := by
      rw [stdoutData]
      by_cases hr : containsSeq READY_MESSAGE d = true
      · rw [if_pos hr]
        rw [handleOutput_not_complete (by simp [h])]
        exact ⟨rfl, h⟩
      · rw [if_neg hr]
        rw [handleOutput_not_complete (by simp [h])]
        exact ⟨rfl, h⟩
    rw [List.foldl_cons]
    obtain ⟨h1, h2⟩ := ih (stdoutData s d) hstep.2
    exact ⟨h1.trans hstep.1, h2⟩

theorem foldl_stdoutData_resolves (out : List Char)
    (H : ∀ p : List Char, p <+: out →
      containsSeq COMMAND_END_RESULTS_MESSAGE p = true → trimChars p = trimChars out) :
    ∀ (cs : List (List Char)) (s : REPLState) (i : Nat) (c : List Char)
      (rest : List (Nat × List Char)),
      s.isProcessingCommand = true →
      s.commandQueue = (i, c) :: rest →
      s.buffer ++ cs.flatten = out →
      containsSeq COMMAND_END_RESULTS_MESSAGE s.buffer = false →
      containsSeq COMMAND_END_RESULTS_MESSAGE out = true →
      (cs.foldl stdoutData s).resolved = s.resolved ++ [(i, trimChars out)] := by
  intro cs
  induction cs with
  | nil =>
    intro s i c rest hproc hq hjoin hbuf hout
    rw [List.flatten_nil, List.append_nil] at hjoin
    rw [hjoin, hout] at hbuf
    exact absurd hbuf (by simp)
  | cons d cs ih =>
    intro s i c rest hproc hq hjoin hbuf hout
    rw [List.foldl_cons]
    rw [List.flatten_cons, ← List.append_assoc] at hjoin
    by_cases hsent : containsSeq COMMAND_END_RESULTS_MESSAGE (s.buffer ++ d) = true
    · have hpref : (s.buffer ++ d) <+: out := ⟨cs.flatten, hjoin⟩
      have htrim : trimChars (s.buffer ++ d) = trimChars out := H _ hpref hsent
      have hres : (stdoutData s d).resolved = s.resolved ++ [(i, trimChars out)]
          ∧ (stdoutData s d).isProcessingCommand = false := by
        rw [stdoutData]
        by_cases hr : containsSeq READY_MESSAGE d = true
        · rw [if_pos hr]
          obtain ⟨b, hstep⟩ := @handleOutput_complete_cons
            { s with isReady := true, pumpBlocked := false } d i c rest
            hq hsent hproc
          rw [hstep]
          constructor
          · show s.resolved ++ [(i, trimChars (s.buffer ++ d))]
              = s.resolved ++ [(i, trimChars out)]
            rw [htrim]
          · rfl
        · rw [if_neg hr]
          obtain ⟨b, hstep⟩ := @handleOutput_complete_cons s d i c rest
            hq hsent hproc
          rw [hstep]
          constructor
          · show s.resolved ++ [(i, trimChars (s.buffer ++ d))]
              = s.resolved ++ [(i, trimChars out)]
            rw [htrim]
          · rfl
      obtain ⟨h1, _⟩ := foldl_stdoutData_of_not_processing cs (stdoutData s d) hres.2
      rw [h1, hres.1]
    · have hsent' : containsSeq COMMAND_END_RESULTS_MESSAGE (s.buffer ++ d)
          = false := by
        rw [← Bool.not_eq_true]
        exact hsent
      by_cases hr : containsSeq READY_MESSAGE d = true
      · rw [stdoutData, if_pos hr, handleOutput_not_complete (by simp [hsent'])]
        exact ih _ i c rest hproc hq hjoin hsent' hout
      · rw [stdoutData, if_neg hr, handleOutput_not_complete (by simp [hsent'])]
        exact ih _ i c rest hproc hq hjoin hsent' hout

/-- C4 (amended): for any sentinel-bearing stdout output in which every
sentinel-containing prefix already trims to the same result as the whole
output — equivalently, whatever follows the first sentinel occurrence is
whitespace, as for real CLI output that ends with the sentinel and a line
terminator — delivering the output in arbitrary chunks to the stdout
handler resolves the in-flight command's future with the same result as
delivering the whole output in a single chunk. -/
theorem stdoutData_chunk_independence (s : REPLState) (i : Nat) (c : List Char)
    (rest : List (Nat × List Char)) (chunks : List (List Char)) (out : List Char)
    (hproc : s.isProcessingCommand = true)
    (hq : s.commandQueue = (i, c) :: rest)
    (hbuf : s.buffer = [])
    (hjoin : chunks.flatten = out)
    (hout : containsSeq COMMAND_END_RESULTS_MESSAGE out = true)
    (hws : ∀ n : Nat, n ≤ out.length →
      containsSeq COMMAND_END_RESULTS_MESSAGE (out.take n) = true →
      trimChars (out.take n) = trimChars out) :
    (chunks.foldl stdoutData s).resolved = s.resolved ++ [(i, trimChars out)]
      ∧ (chunks.foldl stdoutData s).resolved = (stdoutData s out).resolved := by
  have H : ∀ p : List Char, p <+: out →
      containsSeq COMMAND_END_RESULTS_MESSAGE p = true →
      trimChars p = trimChars out := by
    intro p hp hc
    have hlen := hp.length_le
    have htake := List.prefix_iff_eq_take.mp hp
    rw [htake] at hc ⊢
    exact hws p.length hlen hc
  have hbufsent : containsSeq COMMAND_END_RESULTS_MESSAGE s.buffer = false := by
    rw [hbuf]
    decide
  have hchunked := foldl_stdoutData_resolves out H chunks s i c rest hproc hq
    (by rw [hbuf]; simpa using hjoin) hbufsent hout
  have hsingle := foldl_stdoutData_resolves out H [out] s i c rest hproc hq
    (by rw [hbuf]; simp) hbufsent hout
  refine ⟨hchunked, ?_⟩
  rw [hchunked]
  have hone : ([out].foldl stdoutData s) = stdoutData s out := rfl
  rw [← hone, hsingle]

theorem stdoutData_chunk_independence_witness :
    ((run 500 [.stdout "heroku >".data, .submit "apps".data,
        .pump]).isProcessingCommand = true
      ∧ (run 500 [.stdout "heroku >".data, .submit "apps".data,
          .pump]).commandQueue = [(0, "apps".data)]
      ∧ (run 500 [.stdout "heroku >".data, .submit "apps".data, .pump]).buffer = []
      ∧ (["Result li".data, "ne\n<<<END RES".data, "ULTS>>>\n".data] :
          List (List Char)).flatten = "Result line\n<<<END RESULTS>>>\n".data
      ∧ containsSeq COMMAND_END_RESULTS_MESSAGE
          "Result line\n<<<END RESULTS>>>\n".data = true
      ∧ (∀ n : Nat, n ≤ ("Result line\n<<<END RESULTS>>>\n".data).length →
          containsSeq COMMAND_END_RESULTS_MESSAGE
            (("Result line\n<<<END RESULTS>>>\n".data).take n) = true →
          trimChars (("Result line\n<<<END RESULTS>>>\n".data).take n)
            = trimChars "Result line\n<<<END RESULTS>>>\n".data))
    ∧ (([("Result li".data : List Char), "ne\n<<<END RES".data,
          "ULTS>>>\n".data].foldl stdoutData
          (run 500 [.stdout "heroku >".data, .submit "apps".data, .pump])).resolved
        = (run 500 [.stdout "heroku >".data, .submit "apps".data, .pump]).resolved
          ++ [(0, trimChars "Result line\n<<<END RESULTS>>>\n".data)]
      ∧ ([("Result li".data : List Char), "ne\n<<<END RES".data,
          "ULTS>>>\n".data].foldl stdoutData
          (run 500 [.stdout "heroku >".data, .submit "apps".data, .pump])).resolved
        = (stdoutData (run 500 [.stdout "heroku >".data, .submit "apps".data, .pump])
            "Result line\n<<<END RESULTS>>>\n".data).resolved) :=
  ⟨⟨by decide, by decide, by decide, by decide, by decide, by decide⟩,
    stdoutData_chunk_independence _ 0 "apps".data [] _ _ (by decide) (by decide)
      (by decide) (by decide) (by decide) (by decide)⟩

/-- C4 (counterexample): for output that continues past the sentinel,
chunking matters: delivering "a<<<END RESULTS>>>b" split after the
sentinel resolves the future with a different result than delivering it in
one chunk, because the split delivery resolves as soon as the sentinel is
buffered and the trailing text never reaches the result. -/
theorem stdoutData_chunk_dependence :
    (run 500 [.stdout "heroku >".data, .submit "apps".data, .pump,
        .stdout "a<<<END RESULTS>>>".data, .stdout "b".data]).resolved
      ≠ (run 500 [.stdout "heroku >".data, .submit "apps".data, .pump,
        .stdout "a<<<END RESULTS>>>b".data]).resolved := by
  decide
